import Mathlib

/-!
Verification of the pngme chunk codec.

This file gives a shallow embedding of the program's core data model:
the validated 4-byte chunk type (`src/chunk_type.rs`), the
length/type/data/CRC chunk record codec (`src/chunk.rs`), and the PNG
container (module `png`, declared in `main.rs`; its source file is not
present, so it is modelled from the specification).  Bytes are embedded
as `Nat` (a real byte is `< 256`); Rust's `u32` arithmetic is embedded
as `Nat` arithmetic with explicit reduction modulo `2 ^ 32`; fallible
Rust functions become `Except`-valued Lean functions.
-/

set_option maxRecDepth 400000

/-- Embeds Rust `u8::is_ascii_uppercase`. -/
def isAsciiUppercase (b : Nat) : Bool :=
  65 ≤ b && b ≤ 90

/-- Embeds Rust `u8::is_ascii_lowercase`. -/
def isAsciiLowercase (b : Nat) : Bool :=
  97 ≤ b && b ≤ 122

/-- Embeds Rust `u8::is_ascii_alphabetic`. -/
def isAsciiAlphabetic (b : Nat) : Bool :=
  isAsciiUppercase b || isAsciiLowercase b

/-- Embeds `ChunkType` from `src/chunk_type.rs`: a 4-byte type code,
stored here as four byte fields `b0 b1 b2 b3` (Rust `type_code: [u8; 4]`). -/
structure ChunkType where
  b0 : Nat
  b1 : Nat
  b2 : Nat
  b3 : Nat
deriving DecidableEq

/-- Embeds `ChunkType::bytes`. -/
def ChunkType.bytes (t : ChunkType) : List Nat :=
  [t.b0, t.b1, t.b2, t.b3]

/-- Embeds `ChunkType::is_critical`. -/
def ChunkType.is_critical (t : ChunkType) : Bool :=
  isAsciiUppercase t.b0

/-- Embeds `ChunkType::is_public`. -/
def ChunkType.is_public (t : ChunkType) : Bool :=
  isAsciiUppercase t.b1

/-- Embeds `ChunkType::is_reserved_bit_valid`. -/
def ChunkType.is_reserved_bit_valid (t : ChunkType) : Bool :=
  isAsciiUppercase t.b2

/-- Embeds `ChunkType::is_safe_to_copy`. -/
def ChunkType.is_safe_to_copy (t : ChunkType) : Bool :=
  isAsciiLowercase t.b3

/-- Embeds `ChunkType::is_valid`. -/
def ChunkType.is_valid (t : ChunkType) : Bool :=
  t.bytes.all isAsciiAlphabetic && t.is_reserved_bit_valid

/-- Embeds `chunk_type::ValidationError`. -/
inductive ChunkType.ValidationError where
  | nonAscii
  | reservedBit
deriving DecidableEq

/-- Embeds `TryFrom<[u8; 4]> for ChunkType` from `src/chunk_type.rs`.
The 4-byte array argument is passed as a length-4 list. -/
def ChunkType.tryFrom (code : List Nat) : Except ChunkType.ValidationError ChunkType :=
  let ct : ChunkType := ⟨code.getD 0 0, code.getD 1 0, code.getD 2 0, code.getD 3 0⟩
  if !(ct.bytes.all isAsciiAlphabetic) then
    Except.error ChunkType.ValidationError.nonAscii
  else if !(ct.is_reserved_bit_valid) then
    Except.error ChunkType.ValidationError.reservedBit
  else
    Except.ok ct

/-- One bit-step of the reflected CRC-32 computation, as performed by the
`crc` crate for `CRC_32_ISO_HDLC` (reflected polynomial `0xEDB88320`). -/
def crc32Round (c : Nat) : Nat :=
  if c % 2 = 1 then (c / 2) ^^^ 0xEDB88320 else c / 2

/-- Iterates `crc32Round`. -/
def crc32Rounds : Nat → Nat → Nat
  | 0, c => c
  | Nat.succ n, c => crc32Rounds n (crc32Round c)

/-- Feeds one byte into the running CRC-32 state. -/
def crc32Update (c b : Nat) : Nat :=
  crc32Rounds 8 (c ^^^ b)

/-- CRC-32/ISO-HDLC of a byte sequence: init `0xFFFFFFFF`, reflected
polynomial `0xEDB88320`, final xor `0xFFFFFFFF`.  Embeds the `crc` crate
computation used by `Chunk::crc` in `src/chunk.rs`. -/
def crc32 (l : List Nat) : Nat :=
  (l.foldl crc32Update 0xFFFFFFFF) ^^^ 0xFFFFFFFF

/-- Embeds `Chunk` from `src/chunk.rs`: a chunk type plus owned data. -/
structure Chunk where
  chunk_type : ChunkType
  data : List Nat
deriving DecidableEq

/-- Embeds `Chunk::OVERHEAD_BYTES`. -/
def Chunk.OVERHEAD_BYTES : Nat := 12

/-- Embeds `Chunk::new`. -/
def Chunk.new (chunk_type : ChunkType) (chunk_data : List Nat) : Chunk :=
  ⟨chunk_type, chunk_data⟩

/-- Embeds `Chunk::length`: `self.data.len() as u32`, a truncating
usize-to-u32 cast, hence reduction modulo `2 ^ 32`. -/
def Chunk.length (c : Chunk) : Nat :=
  c.data.length % 4294967296

/-- Embeds `Chunk::crc`: CRC-32/ISO-HDLC over type bytes then data. -/
def Chunk.crc (c : Chunk) : Nat :=
  crc32 (c.chunk_type.bytes ++ c.data)

/-- Big-endian bytes of a `u32` value, embedding `u32::to_be_bytes`. -/
def u32BeBytes (n : Nat) : List Nat :=
  [n / 16777216 % 256, n / 65536 % 256, n / 256 % 256, n % 256]

/-- Big-endian `u32` value of a 4-byte list, embedding `u32::from_be_bytes`. -/
def beU32 (l : List Nat) : Nat :=
  l.foldl (fun a b => a * 256 + b) 0

/-- Embeds `Chunk::as_bytes`: length (BE), type, data, crc (BE). -/
def Chunk.as_bytes (c : Chunk) : List Nat :=
  u32BeBytes c.length ++ c.chunk_type.bytes ++ c.data ++ u32BeBytes c.crc

/-- Embeds `chunk::ParseError`: the only variant wraps an I/O error, which
for a slice-backed reader means an unexpected end of input. -/
inductive Chunk.ParseError where
  | ioError
deriving DecidableEq

/-- Embeds `std::io::Read::read_exact` on a slice-backed `BufReader`: on
success yields the bytes read and the remaining input, otherwise fails. -/
def readExact (n : Nat) (s : List Nat) : Except Chunk.ParseError (List Nat × List Nat) :=
  if n ≤ s.length then Except.ok (s.take n, s.drop n)
  else Except.error Chunk.ParseError.ioError

/-- Embeds `Chunk::parse` from `src/chunk.rs`: reads a 4-byte BE length,
a 4-byte type code, that many data bytes, a 4-byte BE crc.  The reader
state is made explicit: the unread remainder of the input is returned
alongside the `(length, type_bytes, data, crc)` tuple. -/
def Chunk.parse (s : List Nat) :
    Except Chunk.ParseError ((Nat × List Nat × List Nat × Nat) × List Nat) :=
  match readExact 4 s with
  | Except.error e => Except.error e
  | Except.ok (lenBytes, s1) =>
    match readExact 4 s1 with
    | Except.error e => Except.error e
    | Except.ok (typeBytes, s2) =>
      match readExact (beU32 lenBytes) s2 with
      | Except.error e => Except.error e
      | Except.ok (data, s3) =>
        match readExact 4 s3 with
        | Except.error e => Except.error e
        | Except.ok (crcBytes, s4) =>
          Except.ok ((beU32 lenBytes, typeBytes, data, beU32 crcBytes), s4)

/-- Embeds `chunk::ValidationError`. -/
inductive Chunk.ValidationError where
  | lengthMismatch (expected actual : Nat)
  | chunkTypeErr (e : ChunkType.ValidationError)
  | crc32Mismatch (expected actual : Nat)
deriving DecidableEq

/-- Embeds `Chunk::validate` from `src/chunk.rs`: chunk-type validation
first, then the length cross-check, then the CRC cross-check. -/
def Chunk.validate (length : Nat) (typeBytes : List Nat) (data : List Nat) (crcField : Nat) :
    Except Chunk.ValidationError Chunk :=
  match ChunkType.tryFrom typeBytes with
  | Except.error e => Except.error (Chunk.ValidationError.chunkTypeErr e)
  | Except.ok t =>
    let chunk : Chunk := ⟨t, data⟩
    let expected_length := chunk.length
    if expected_length ≠ length then
      Except.error (Chunk.ValidationError.lengthMismatch expected_length length)
    else
      let expected_crc := chunk.crc
      if expected_crc ≠ crcField then
        Except.error (Chunk.ValidationError.crc32Mismatch expected_crc crcField)
      else
        Except.ok chunk

/-- Embeds `chunk::ChunkError`. -/
inductive Chunk.ChunkError where
  | validation (e : Chunk.ValidationError)
  | parsing (e : Chunk.ParseError)
deriving DecidableEq

/-- Embeds `TryFrom<&[u8]> for Chunk` (via `TryFrom<BufReader<R>>`):
parse then validate, discarding any unread trailing input. -/
def Chunk.tryFromBytes (s : List Nat) : Except Chunk.ChunkError Chunk :=
  match Chunk.parse s with
  | Except.error e => Except.error (Chunk.ChunkError.parsing e)
  | Except.ok ((len, typeBytes, data, crcField), _rest) =>
    match Chunk.validate len typeBytes data crcField with
    | Except.error e => Except.error (Chunk.ChunkError.validation e)
    | Except.ok c => Except.ok c

/-- Single-record chunk decoder that also returns the unconsumed input;
same parse-then-validate pipeline as `Chunk.tryFromBytes`, used by the
container decoder. -/
def Chunk.decodeOne (s : List Nat) : Except Chunk.ChunkError (Chunk × List Nat) :=
  match Chunk.parse s with
  | Except.error e => Except.error (Chunk.ChunkError.parsing e)
  | Except.ok ((len, typeBytes, data, crcField), rest) =>
    match Chunk.validate len typeBytes data crcField with
    | Except.error e => Except.error (Chunk.ChunkError.validation e)
    | Except.ok c => Except.ok (c, rest)

/-- Success equation for `readExact`. -/
theorem readExact_ok {n : Nat} {s : List Nat} (h : n ≤ s.length) :
    readExact n s = Except.ok (s.take n, s.drop n) := by
  unfold readExact
  rw [if_pos h]

/-- Failure equation for `readExact`. -/
theorem readExact_err {n : Nat} {s : List Nat} (h : s.length < n) :
    readExact n s = Except.error Chunk.ParseError.ioError := by
  unfold readExact
  rw [if_neg (by omega)]

/-- Closed-form characterization of `Chunk.parse`: it succeeds exactly
when the input holds the 12 header and trailer bytes plus the declared
number of data bytes, reads the fields at their fixed offsets, and
leaves everything after the first `12 + L` bytes unread. -/
theorem chunk_parse_eq (s : List Nat) :
    Chunk.parse s =
      (if 12 + beU32 (s.take 4) ≤ s.length then
        Except.ok ((beU32 (s.take 4), (s.drop 4).take 4,
          (s.drop 8).take (beU32 (s.take 4)),
          beU32 ((s.drop (8 + beU32 (s.take 4))).take 4)),
          s.drop (12 + beU32 (s.take 4)))
      else Except.error Chunk.ParseError.ioError) := by
  by_cases h : 12 + beU32 (s.take 4) ≤ s.length
  · rw [if_pos h]
    unfold Chunk.parse
    rw [readExact_ok (show 4 ≤ s.length by omega)]
    dsimp only
    rw [readExact_ok (show 4 ≤ (s.drop 4).length by simp [List.length_drop]; omega)]
    dsimp only
    rw [List.drop_drop]
    norm_num
    rw [readExact_ok (show beU32 (s.take 4) ≤ (s.drop 8).length by
      simp [List.length_drop]; omega)]
    dsimp only
    rw [List.drop_drop]
    rw [readExact_ok (show 4 ≤ (s.drop (8 + beU32 (s.take 4))).length by
      simp [List.length_drop]; omega)]
    dsimp only
    rw [List.drop_drop]
    have h12 : 8 + beU32 (s.take 4) + 4 = 12 + beU32 (s.take 4) := by omega
    rw [h12]
  · rw [if_neg h]
    unfold Chunk.parse
    by_cases h1 : 4 ≤ s.length
    · rw [readExact_ok h1]
      dsimp only
      by_cases h2 : 4 ≤ (s.drop 4).length
      · rw [readExact_ok h2]
        dsimp only
        rw [List.drop_drop]
        norm_num
        by_cases h3 : beU32 (s.take 4) ≤ (s.drop 8).length
        · rw [readExact_ok h3]
          dsimp only
          rw [List.drop_drop]
          rw [readExact_err (show (s.drop (8 + beU32 (s.take 4))).length < 4 by
            simp [List.length_drop]
            simp [List.length_drop] at h3
            omega)]
        · rw [readExact_err (by omega)]
      · rw [readExact_err (by omega)]
    · rw [readExact_err (by omega)]

/-- A successful `Chunk.parse` consumes at least the 12 overhead bytes,
so the unread remainder is strictly shorter than the input. -/
theorem chunk_parse_rest_lt {s : List Nat} {q : Nat × List Nat × List Nat × Nat}
    {rest : List Nat} (h : Chunk.parse s = Except.ok (q, rest)) :
    rest.length < s.length := by
  rw [chunk_parse_eq] at h
  by_cases hc : 12 + beU32 (s.take 4) ≤ s.length
  · rw [if_pos hc] at h
    injection h with h1
    injection h1 with h2 h3
    subst h3
    simp only [List.length_drop]
    omega
  · rw [if_neg hc] at h
    exact absurd h (by simp)

/-- Equation for `Chunk.decodeOne` when parsing fails. -/
theorem chunk_decodeOne_parse_err {s : List Nat} {e : Chunk.ParseError}
    (hp : Chunk.parse s = Except.error e) :
    Chunk.decodeOne s = Except.error (Chunk.ChunkError.parsing e) := by
  unfold Chunk.decodeOne
  rw [hp]

/-- Equation for `Chunk.decodeOne` when parsing succeeds but validation fails. -/
theorem chunk_decodeOne_validate_err {s : List Nat} {L : Nat} {ty d : List Nat}
    {w : Nat} {rest : List Nat} {e : Chunk.ValidationError}
    (hp : Chunk.parse s = Except.ok ((L, ty, d, w), rest))
    (hv : Chunk.validate L ty d w = Except.error e) :
    Chunk.decodeOne s = Except.error (Chunk.ChunkError.validation e) := by
  unfold Chunk.decodeOne
  rw [hp]
  dsimp only
  rw [hv]

/-- Equation for `Chunk.decodeOne` when parsing and validation succeed. -/
theorem chunk_decodeOne_ok {s : List Nat} {L : Nat} {ty d : List Nat}
    {w : Nat} {rest : List Nat} {c : Chunk}
    (hp : Chunk.parse s = Except.ok ((L, ty, d, w), rest))
    (hv : Chunk.validate L ty d w = Except.ok c) :
    Chunk.decodeOne s = Except.ok (c, rest) := by
  unfold Chunk.decodeOne
  rw [hp]
  dsimp only
  rw [hv]

/-- Equation for `Chunk.tryFromBytes` when parsing fails. -/
theorem chunk_tryFromBytes_parse_err {s : List Nat} {e : Chunk.ParseError}
    (hp : Chunk.parse s = Except.error e) :
    Chunk.tryFromBytes s = Except.error (Chunk.ChunkError.parsing e) := by
  unfold Chunk.tryFromBytes
  rw [hp]

/-- Equation for `Chunk.tryFromBytes` when parsing succeeds but validation fails. -/
theorem chunk_tryFromBytes_validate_err {s : List Nat} {L : Nat} {ty d : List Nat}
    {w : Nat} {rest : List Nat} {e : Chunk.ValidationError}
    (hp : Chunk.parse s = Except.ok ((L, ty, d, w), rest))
    (hv : Chunk.validate L ty d w = Except.error e) :
    Chunk.tryFromBytes s = Except.error (Chunk.ChunkError.validation e) := by
  unfold Chunk.tryFromBytes
  rw [hp]
  dsimp only
  rw [hv]

/-- Equation for `Chunk.tryFromBytes` when parsing and validation succeed. -/
theorem chunk_tryFromBytes_ok {s : List Nat} {L : Nat} {ty d : List Nat}
    {w : Nat} {rest : List Nat} {c : Chunk}
    (hp : Chunk.parse s = Except.ok ((L, ty, d, w), rest))
    (hv : Chunk.validate L ty d w = Except.ok c) :
    Chunk.tryFromBytes s = Except.ok c := by
  unfold Chunk.tryFromBytes
  rw [hp]
  dsimp only
  rw [hv]

/-- `Chunk.validate` reports a chunk-type error, regardless of the length
and crc fields, whenever the type code fails chunk-type validation. -/
theorem chunk_validate_tryFrom_err {L : Nat} {ty d : List Nat} {w : Nat}
    {e : ChunkType.ValidationError} (htf : ChunkType.tryFrom ty = Except.error e) :
    Chunk.validate L ty d w = Except.error (Chunk.ValidationError.chunkTypeErr e) := by
  unfold Chunk.validate
  rw [htf]

/-- Success introduction for `Chunk.validate`. -/
theorem chunk_validate_ok_intro {L : Nat} {ty d : List Nat} {w : Nat} {t : ChunkType}
    (htf : ChunkType.tryFrom ty = Except.ok t)
    (hl : d.length % 4294967296 = L) (hc : crc32 (t.bytes ++ d) = w) :
    Chunk.validate L ty d w = Except.ok ⟨t, d⟩ := by
  unfold Chunk.validate
  rw [htf]
  simp [Chunk.length, Chunk.crc, hl, hc]

/-- `Chunk.validate` reports a crc mismatch, carrying the recomputed and
the on-wire value, when the type is valid and the length field matches
but the crc field does not. -/
theorem chunk_validate_crc_err {L : Nat} {ty d : List Nat} {w : Nat} {t : ChunkType}
    (htf : ChunkType.tryFrom ty = Except.ok t)
    (hl : d.length % 4294967296 = L) (hc : crc32 (t.bytes ++ d) ≠ w) :
    Chunk.validate L ty d w =
      Except.error (Chunk.ValidationError.crc32Mismatch (crc32 (t.bytes ++ d)) w) := by
  unfold Chunk.validate
  rw [htf]
  simp [Chunk.length, Chunk.crc, hl, hc]

/-- Success elimination for `Chunk.validate`: the stored chunk carries the
validated type and the parsed data, and both cross-checks passed. -/
theorem chunk_validate_ok_elim {L : Nat} {ty d : List Nat} {w : Nat} {c : Chunk}
    (h : Chunk.validate L ty d w = Except.ok c) :
    ChunkType.tryFrom ty = Except.ok c.chunk_type ∧ c.data = d ∧
      d.length % 4294967296 = L ∧ crc32 (c.chunk_type.bytes ++ d) = w := by
  unfold Chunk.validate at h
  cases htf : ChunkType.tryFrom ty with
  | error e =>
    rw [htf] at h
    exact absurd h (by simp)
  | ok t =>
    rw [htf] at h
    dsimp only [Chunk.length, Chunk.crc] at h
    by_cases h1 : d.length % 4294967296 ≠ L
    · rw [if_pos h1] at h
      exact absurd h (by simp)
    · rw [if_neg h1] at h
      rw [not_ne_iff] at h1
      by_cases h2 : crc32 (t.bytes ++ d) ≠ w
      · rw [if_pos h2] at h
        exact absurd h (by simp)
      · rw [if_neg h2] at h
        rw [not_ne_iff] at h2
        obtain ⟨ct, cd⟩ := c
        injection h with h3
        injection h3 with e1 e2
        subst e1
        subst e2
        exact ⟨rfl, rfl, h1, h2⟩

/-- A successful `Chunk.decodeOne` leaves a strictly shorter remainder. -/
theorem chunk_decodeOne_rest_lt {s : List Nat} {c : Chunk} {rest : List Nat}
    (h : Chunk.decodeOne s = Except.ok (c, rest)) : rest.length < s.length := by
  cases hp : Chunk.parse s with
  | error e =>
    rw [chunk_decodeOne_parse_err hp] at h
    exact absurd h (by simp)
  | ok pr =>
    obtain ⟨⟨L, ty, d, w⟩, r⟩ := pr
    cases hv : Chunk.validate L ty d w with
    | error e =>
      rw [chunk_decodeOne_validate_err hp hv] at h
      exact absurd h (by simp)
    | ok c2 =>
      rw [chunk_decodeOne_ok hp hv] at h
      injection h with h1
      injection h1 with h2 h3
      subst h3
      exact chunk_parse_rest_lt hp

/-- Modelled from the spec: the PNG container (struct `Png` in the missing
source file `src/png.rs`, module `png` of `main.rs`) is an ordered sequence
of chunks (spec section 3: insertion order is file order). -/
structure Png where
  chunks : List Chunk
deriving DecidableEq

/-- Modelled from the spec: the `PngError` taxonomy of section 7 — a bad
signature, or a wrapped chunk error. -/
inductive Png.PngError where
  | badSignature
  | chunkErr (e : Chunk.ChunkError)
deriving DecidableEq

/-- The fixed 8-byte PNG signature `89 50 4E 47 0D 0A 1A 0A` (spec section 6). -/
def pngSignature : List Nat :=
  [137, 80, 78, 71, 13, 10, 26, 10]

/-- Modelled from the spec (section 4.3, `PngContainer::decode`): repeatedly
decode chunks from the remaining bytes until input is exhausted, stopping at
the first failure. -/
def Png.decodeChunks (s : List Nat) : Except Chunk.ChunkError (List Chunk) :=
  if s.isEmpty then Except.ok []
  else
    match h : Chunk.decodeOne s with
    | Except.error e => Except.error e
    | Except.ok (c, rest) =>
      match Png.decodeChunks rest with
      | Except.error e => Except.error e
      | Except.ok cs => Except.ok (c :: cs)
termination_by s.length
decreasing_by exact chunk_decodeOne_rest_lt h

/-- Modelled from the spec (section 4.3, `PngContainer::decode`): fail with
`BadSignature` if the first 8 bytes are not the PNG signature, otherwise
decode the chunk sequence from the remaining bytes, wrapping chunk errors. -/
def Png.decode (b : List Nat) : Except Png.PngError Png :=
  if b.take 8 = pngSignature then
    match Png.decodeChunks (b.drop 8) with
    | Except.error e => Except.error (Png.PngError.chunkErr e)
    | Except.ok cs => Except.ok ⟨cs⟩
  else
    Except.error Png.PngError.badSignature

/-- Modelled from the spec (section 4.3, `PngContainer::encode`): the 8-byte
signature followed by each chunk's encoding in list order. -/
def Png.as_bytes (p : Png) : List Nat :=
  pngSignature ++ (p.chunks.map Chunk.as_bytes).flatten

/-- The big-endian value of at most four bytes fits in a `u32`. -/
theorem beU32_lt {l : List Nat} (hlen : l.length ≤ 4) (hb : ∀ b ∈ l, b < 256) :
    beU32 l < 4294967296 := by
  rcases l with _ | ⟨a, _ | ⟨b, _ | ⟨c, _ | ⟨d, _ | ⟨e, tl⟩⟩⟩⟩⟩
  · simp [beU32]
  · simp only [List.mem_singleton, forall_eq] at hb
    simp only [beU32, List.foldl]
    omega
  · simp only [List.mem_cons, List.mem_singleton, forall_eq_or_imp, forall_eq] at hb
    simp only [beU32, List.foldl]
    omega
  · simp only [List.mem_cons, List.mem_singleton, forall_eq_or_imp, forall_eq] at hb
    simp only [beU32, List.foldl]
    omega
  · simp only [List.mem_cons, List.mem_singleton, forall_eq_or_imp, forall_eq] at hb
    simp only [beU32, List.foldl]
    omega
  · simp at hlen

/-- Writing back the big-endian value of a 4-byte list recovers the list. -/
theorem u32BeBytes_beU32 {l : List Nat} (hlen : l.length = 4) (hb : ∀ b ∈ l, b < 256) :
    u32BeBytes (beU32 l) = l := by
  rcases l with _ | ⟨a, _ | ⟨b, _ | ⟨c, _ | ⟨d, _ | ⟨e, tl⟩⟩⟩⟩⟩ <;> simp at hlen
  simp only [List.mem_cons, List.mem_singleton, forall_eq_or_imp, forall_eq] at hb
  simp only [beU32, u32BeBytes, List.foldl, List.cons.injEq, and_true]
  refine ⟨by omega, by omega, by omega, by omega⟩

/-- Reading back the big-endian bytes of a `u32` value recovers the value. -/
theorem beU32_u32BeBytes {n : Nat} (h : n < 4294967296) :
    beU32 (u32BeBytes n) = n := by
  simp only [beU32, u32BeBytes, List.foldl]
  omega

/-- The big-endian bytes of any value are genuine bytes. -/
theorem u32BeBytes_mem_lt {n : Nat} : ∀ b ∈ u32BeBytes n, b < 256 := by
  simp only [u32BeBytes, List.mem_cons, List.not_mem_nil, or_false]
  intro b hb
  rcases hb with h | h | h | h <;> omega

/-- `u32BeBytes` always produces exactly four bytes. -/
theorem u32BeBytes_length {n : Nat} : (u32BeBytes n).length = 4 := rfl

/-- One CRC bit-step keeps the state inside 32 bits. -/
theorem crc32Round_lt {c : Nat} (h : c < 4294967296) :
    crc32Round c < 4294967296 := by
  unfold crc32Round
  split
  · have h1 : c / 2 < 2 ^ 32 := by omega
    have h2 : (0xEDB88320 : Nat) < 2 ^ 32 := by norm_num
    have := Nat.xor_lt_two_pow h1 h2
    omega
  · omega

/-- Iterated CRC bit-steps keep the state inside 32 bits. -/
theorem crc32Rounds_lt {c : Nat} (h : c < 4294967296) :
    ∀ n, crc32Rounds n c < 4294967296 := by
  intro n
  induction n generalizing c with
  | zero => simpa [crc32Rounds] using h
  | succ k ih =>
    rw [crc32Rounds]
    exact ih (crc32Round_lt h)

/-- Feeding a byte keeps the CRC state inside 32 bits. -/
theorem crc32Update_lt {c b : Nat} (hc : c < 4294967296) (hb : b < 256) :
    crc32Update c b < 4294967296 := by
  unfold crc32Update
  refine crc32Rounds_lt ?_ 8
  have h1 : c < 2 ^ 32 := by omega
  have h2 : b < 2 ^ 32 := by omega
  have := Nat.xor_lt_two_pow h1 h2
  omega

/-- The CRC-32 of a byte sequence is a `u32` value. -/
theorem crc32_lt {l : List Nat} (hb : ∀ b ∈ l, b < 256) :
    crc32 l < 4294967296 := by
  unfold crc32
  have hfold : ∀ (m : List Nat) (acc : Nat), acc < 4294967296 → (∀ b ∈ m, b < 256) →
      m.foldl crc32Update acc < 4294967296 := by
    intro m
    induction m with
    | nil => intro acc ha _; simpa [List.foldl] using ha
    | cons x xs ih =>
      intro acc ha hm
      rw [List.foldl_cons]
      exact ih _ (crc32Update_lt ha (hm x (by simp))) (fun b hbm => hm b (by simp [hbm]))
  have h1 := hfold l 0xFFFFFFFF (by norm_num) hb
  have h2 : l.foldl crc32Update 0xFFFFFFFF < 2 ^ 32 := by omega
  have h3 : (0xFFFFFFFF : Nat) < 2 ^ 32 := by norm_num
  have := Nat.xor_lt_two_pow h2 h3
  omega

/-- A validated chunk type stores exactly the 4 input bytes. -/
theorem chunkType_tryFrom_ok_bytes {ty : List Nat} {t : ChunkType}
    (h : ChunkType.tryFrom ty = Except.ok t) (hlen : ty.length = 4) :
    t.bytes = ty := by
  rcases ty with _ | ⟨a, _ | ⟨b, _ | ⟨c, _ | ⟨d, _ | ⟨e, tl⟩⟩⟩⟩⟩ <;> simp at hlen
  unfold ChunkType.tryFrom at h
  dsimp only at h
  split_ifs at h
  injection h with h3
  subst h3
  rfl

/-- Splitting a list at offsets 4, 8, 8 + L, 12 + L and concatenating the
pieces gives the list back. -/
theorem take_recombine (s : List Nat) (L : Nat) :
    s.take 4 ++ ((s.drop 4).take 4 ++ ((s.drop 8).take L ++
      ((s.drop (8 + L)).take 4 ++ s.drop (12 + L)))) = s := by
  have e3 : s.take 8 = s.take 4 ++ (s.drop 4).take 4 := by
    have h := List.take_add s 4 4
    norm_num at h
    exact h
  have e2 : s.take (8 + L) = s.take 8 ++ (s.drop 8).take L := List.take_add s 8 L
  have e1 : s.take (12 + L) = s.take (8 + L) ++ (s.drop (8 + L)).take 4 := by
    have h := List.take_add s (8 + L) 4
    rw [show 8 + L + 4 = 12 + L by omega] at h
    exact h
  calc s.take 4 ++ ((s.drop 4).take 4 ++ ((s.drop 8).take L ++
        ((s.drop (8 + L)).take 4 ++ s.drop (12 + L))))
      = s.take (12 + L) ++ s.drop (12 + L) := by
        rw [e1, e2, e3]
        simp [List.append_assoc]
    _ = s := List.take_append_drop (12 + L) s

/-- A chunk successfully decoded from the front of a byte stream
re-encodes to exactly the bytes that were consumed: `decodeOne` inverts
`as_bytes` on the wire. -/
theorem chunk_decodeOne_recombine {s : List Nat} {c : Chunk} {rest : List Nat}
    (hb : ∀ b ∈ s, b < 256) (h : Chunk.decodeOne s = Except.ok (c, rest)) :
    c.as_bytes ++ rest = s := by
  cases hp : Chunk.parse s with
  | error e =>
    rw [chunk_decodeOne_parse_err hp] at h
    exact absurd h (by simp)
  | ok pr =>
    obtain ⟨⟨L, ty, d, w⟩, r⟩ := pr
    cases hv : Chunk.validate L ty d w with
    | error e =>
      rw [chunk_decodeOne_validate_err hp hv] at h
      exact absurd h (by simp)
    | ok c2 =>
      rw [chunk_decodeOne_ok hp hv] at h
      injection h with h1
      injection h1 with h2 h3
      rw [← h2, ← h3]
      rw [chunk_parse_eq] at hp
      by_cases hcond : 12 + beU32 (s.take 4) ≤ s.length
      case neg =>
        rw [if_neg hcond] at hp
        exact absurd hp (by simp)
      rw [if_pos hcond] at hp
      injection hp with hp1
      injection hp1 with hpA hpR
      injection hpA with hL hpA2
      injection hpA2 with hTy hpA3
      injection hpA3 with hD hW
      subst hL
      subst hTy
      subst hD
      subst hW
      subst hpR
      obtain ⟨htf, hdata, hlen, hcrc⟩ := chunk_validate_ok_elim hv
      set L := beU32 (s.take 4) with hLdef
      have htake4len : (s.take 4).length = 4 := by
        simp only [List.length_take]
        omega
      have htylen : ((s.drop 4).take 4).length = 4 := by
        simp only [List.length_take, List.length_drop]
        omega
      have hcrclen : ((s.drop (8 + L)).take 4).length = 4 := by
        simp only [List.length_take, List.length_drop]
        omega
      have hbty : ∀ b ∈ (s.drop 4).take 4, b < 256 :=
        fun b hbm => hb b (List.drop_subset 4 s (List.take_subset 4 _ hbm))
      have hbtake4 : ∀ b ∈ s.take 4, b < 256 :=
        fun b hbm => hb b (List.take_subset 4 s hbm)
      have hbcrc : ∀ b ∈ (s.drop (8 + L)).take 4, b < 256 :=
        fun b hbm => hb b (List.drop_subset (8 + L) s (List.take_subset 4 _ hbm))
      have hclen : c2.length = L := by
        simp only [Chunk.length, hdata]
        exact hlen
      have hcbytes : c2.chunk_type.bytes = (s.drop 4).take 4 :=
        chunkType_tryFrom_ok_bytes htf htylen
      have hccrc : c2.crc = beU32 ((s.drop (8 + L)).take 4) := by
        simp only [Chunk.crc, hdata]
        exact hcrc
      unfold Chunk.as_bytes
      rw [hclen, hcbytes, hdata, hccrc]
      rw [u32BeBytes_beU32 hcrclen hbcrc]
      rw [hLdef, u32BeBytes_beU32 htake4len hbtake4]
      simp only [List.append_assoc]
      exact take_recombine s (beU32 (s.take 4))

/-- The chunk-list decoder accepts an exhausted input. -/
theorem png_decodeChunks_nil : Png.decodeChunks [] = Except.ok [] := by
  unfold Png.decodeChunks
  simp

/-- The chunk-list decoder propagates a failure of the first record. -/
theorem png_decodeChunks_err {s : List Nat} {e : Chunk.ChunkError}
    (hne : s.isEmpty = false) (hd : Chunk.decodeOne s = Except.error e) :
    Png.decodeChunks s = Except.error e := by
  unfold Png.decodeChunks
  rw [if_neg (by simp [hne])]
  split
  next e2 heq =>
    rw [hd] at heq
    injection heq with h2
    rw [h2]
  next c2 rest2 heq =>
    rw [hd] at heq
    exact absurd heq (by simp)

/-- The chunk-list decoder propagates a failure after the first record. -/
theorem png_decodeChunks_step_err {s : List Nat} {c : Chunk} {rest : List Nat}
    {e : Chunk.ChunkError}
    (hne : s.isEmpty = false) (hd : Chunk.decodeOne s = Except.ok (c, rest))
    (hr : Png.decodeChunks rest = Except.error e) :
    Png.decodeChunks s = Except.error e := by
  unfold Png.decodeChunks
  rw [if_neg (by simp [hne])]
  split
  next e2 heq =>
    rw [hd] at heq
    exact absurd heq (by simp)
  next c2 rest2 heq =>
    rw [hd] at heq
    injection heq with h1
    injection h1 with h2 h3
    subst h2
    subst h3
    rw [hr]

/-- The chunk-list decoder conses a decoded record onto the decoded rest. -/
theorem png_decodeChunks_step {s : List Nat} {c : Chunk} {rest : List Nat}
    {cs : List Chunk}
    (hne : s.isEmpty = false) (hd : Chunk.decodeOne s = Except.ok (c, rest))
    (hr : Png.decodeChunks rest = Except.ok cs) :
    Png.decodeChunks s = Except.ok (c :: cs) := by
  unfold Png.decodeChunks
  rw [if_neg (by simp [hne])]
  split
  next e2 heq =>
    rw [hd] at heq
    exact absurd heq (by simp)
  next c2 rest2 heq =>
    rw [hd] at heq
    injection heq with h1
    injection h1 with h2 h3
    subst h2
    subst h3
    rw [hr]

/-- A successfully decoded chunk list re-encodes to exactly the input bytes. -/
theorem png_decodeChunks_recombine : ∀ (n : Nat) (s : List Nat) (cs : List Chunk),
    s.length ≤ n → (∀ b ∈ s, b < 256) → Png.decodeChunks s = Except.ok cs →
    (cs.map Chunk.as_bytes).flatten = s := by
  intro n
  induction n with
  | zero =>
    intro s cs hlen hb h
    have hs : s = [] := List.eq_nil_of_length_eq_zero (by omega)
    subst hs
    rw [png_decodeChunks_nil] at h
    injection h with h1
    rw [← h1]
    rfl
  | succ n ih =>
    intro s cs hlen hb h
    cases he : s.isEmpty with
    | true =>
      have hs : s = [] := by
        rwa [List.isEmpty_iff] at he
      subst hs
      rw [png_decodeChunks_nil] at h
      injection h with h1
      rw [← h1]
      rfl
    | false =>
      cases hd : Chunk.decodeOne s with
      | error e =>
        rw [png_decodeChunks_err he hd] at h
        exact absurd h (by simp)
      | ok pr =>
        obtain ⟨c, rest⟩ := pr
        have hrecomb := chunk_decodeOne_recombine hb hd
        cases hr : Png.decodeChunks rest with
        | error e =>
          rw [png_decodeChunks_step_err he hd hr] at h
          exact absurd h (by simp)
        | ok cs2 =>
          rw [png_decodeChunks_step he hd hr] at h
          injection h with h1
          rw [← h1]
          have hrestb : ∀ x ∈ rest, x < 256 := by
            intro x hxm
            apply hb
            rw [← hrecomb]
            exact List.mem_append_right _ hxm
          have hrlen : rest.length ≤ n := by
            have := chunk_decodeOne_rest_lt hd
            omega
          have ihr := ih rest cs2 hrlen hrestb hr
          simp only [List.map_cons, List.flatten_cons]
          rw [ihr]
          exact hrecomb

/-- The chunk type with code "RuSt" (bytes 82, 117, 83, 116). -/
def rustType : ChunkType := ⟨82, 117, 83, 116⟩

/-- The bytes of the ASCII string "This is where your secret message will be!". -/
def secretMsg : List Nat :=
  [84, 104, 105, 115, 32, 105, 115, 32, 119, 104, 101, 114, 101, 32,
   121, 111, 117, 114, 32, 115, 101, 99, 114, 101, 116, 32, 109, 101,
   115, 115, 97, 103, 101, 32, 119, 105, 108, 108, 32, 98, 101, 33]

/-- A payload of exactly `2 ^ 32` zero bytes. -/
def bigData : List Nat := List.replicate 4294967296 0

/-- Claim C2: every byte buffer accepted by `Png.decode` is reproduced
exactly by re-encoding the decoded container: the 8-byte PNG signature
`89 50 4E 47 0D 0A 1A 0A` followed by each chunk's wire encoding in list
order. -/
theorem png_decode_encode_c2 (b : List Nat) (p : Png) (hb : ∀ x ∈ b, x < 256)
    (h : Png.decode b = Except.ok p) : p.as_bytes = b := by
  unfold Png.decode at h
  by_cases hsig : b.take 8 = pngSignature
  · rw [if_pos hsig] at h
    cases hc : Png.decodeChunks (b.drop 8) with
    | error e =>
      rw [hc] at h
      exact absurd h (by simp)
    | ok cs =>
      rw [hc] at h
      dsimp only at h
      injection h with h1
      subst h1
      unfold Png.as_bytes
      dsimp only
      have hdropb : ∀ x ∈ b.drop 8, x < 256 := fun x hx => hb x (List.drop_subset 8 b hx)
      have hrec := png_decodeChunks_recombine (b.drop 8).length (b.drop 8) cs le_rfl hdropb hc
      rw [hrec, ← hsig]
      exact List.take_append_drop 8 b
  · rw [if_neg hsig] at h
    exact absurd h (by simp)

/-- The signature alone decodes to the empty container. -/
theorem png_decode_sig : Png.decode pngSignature = Except.ok ⟨[]⟩ := by
  unfold Png.decode
  rw [if_pos (by decide)]
  rw [show Png.decodeChunks (pngSignature.drop 8) = Except.ok [] from png_decodeChunks_nil]

/-- Witness for claim C2 at the minimal container. -/
theorem png_decode_encode_c2_witness : Png.as_bytes ⟨[]⟩ = pngSignature :=
  png_decode_encode_c2 pngSignature ⟨[]⟩ (by decide) png_decode_sig

/-- Claim C5: `Chunk.parse` reads, in order, a 4-byte big-endian length
`L`, a 4-byte type code, exactly `L` data bytes and a 4-byte big-endian
CRC, consuming exactly `12 + L` bytes of the input (the remainder it
returns is the input minus its first `12 + L` bytes), and it fails with
the truncation error exactly when the input holds fewer bytes than the
header and the declared length require. -/
theorem chunk_parse_c5 (s : List Nat) :
    Chunk.parse s =
      (if 12 + beU32 (s.take 4) ≤ s.length then
        Except.ok ((beU32 (s.take 4), (s.drop 4).take 4,
          (s.drop 8).take (beU32 (s.take 4)),
          beU32 ((s.drop (8 + beU32 (s.take 4))).take 4)),
          s.drop (12 + beU32 (s.take 4)))
      else Except.error Chunk.ParseError.ioError) :=
  chunk_parse_eq s

/-- Claim C10: `Chunk.new` is total, `Chunk.length` is the data length
reduced modulo `2 ^ 32`, and for a payload of exactly `2 ^ 32` bytes the
reported length wraps around to 0. -/
theorem chunk_length_wrap_c10 (t : ChunkType) (d : List Nat) :
    (Chunk.new t d).length = d.length % 4294967296 ∧
      (Chunk.new t bigData).length = 0 := by
  constructor
  · rfl
  · show bigData.length % 4294967296 = 0
    have h2 : bigData.length = 4294967296 := List.length_replicate 4294967296 0
    rw [h2, Nat.mod_self]

/-- Counterexample to claim C7: the payload "This is where your secret
message will be!" has 42 bytes, so the chunk built from it has length
field 42, not 44. -/
theorem chunk_c7_counterexample :
    secretMsg.length ≠ 44 ∧ (Chunk.new rustType secretMsg).length ≠ 44 := by
  constructor
  · decide
  · decide

/-- Claim C7 (amended): the chunk built from type "RuSt" and the payload
"This is where your secret message will be!" (42 bytes) has length field
42 and CRC 2882656334. -/
theorem chunk_rust_scenario_c7 :
    secretMsg.length = 42 ∧ (Chunk.new rustType secretMsg).length = 42 ∧
      (Chunk.new rustType secretMsg).crc = 2882656334 := by
  refine ⟨rfl, rfl, ?_⟩
  decide

/-- A double-negation elimination step for `Bool` hypotheses. -/
theorem bool_false_of_not {b : Bool} (h : ¬(b = true)) : b = false := by
  cases b
  · rfl
  · exact absurd rfl h

/-- Claim C3: `ChunkType` construction from 4 bytes succeeds iff all four
bytes are ASCII letters and byte 2 is uppercase; it fails with the
`NonAscii` error when some byte is not ASCII alphabetic, and with the
`ReservedBit` error when all bytes are alphabetic but byte 2 is lowercase. -/
theorem chunkType_tryFrom_c3 (b0 b1 b2 b3 : Nat)
    (h0 : b0 < 256) (h1 : b1 < 256) (h2 : b2 < 256) (h3 : b3 < 256) :
    ((ChunkType.tryFrom [b0, b1, b2, b3]).isOk = true ↔
      ((isAsciiAlphabetic b0 && (isAsciiAlphabetic b1 &&
        (isAsciiAlphabetic b2 && isAsciiAlphabetic b3))) &&
        isAsciiUppercase b2) = true) ∧
    ((isAsciiAlphabetic b0 && (isAsciiAlphabetic b1 &&
        (isAsciiAlphabetic b2 && isAsciiAlphabetic b3))) = false →
      ChunkType.tryFrom [b0, b1, b2, b3] =
        Except.error ChunkType.ValidationError.nonAscii) ∧
    ((isAsciiAlphabetic b0 && (isAsciiAlphabetic b1 &&
        (isAsciiAlphabetic b2 && isAsciiAlphabetic b3))) = true →
      isAsciiLowercase b2 = true →
      ChunkType.tryFrom [b0, b1, b2, b3] =
        Except.error ChunkType.ValidationError.reservedBit) := by
  have hdisj : isAsciiLowercase b2 = true → isAsciiUppercase b2 = false := by
    intro hlow
    cases hu : isAsciiUppercase b2
    · rfl
    · exfalso
      simp only [isAsciiUppercase, Bool.and_eq_true, decide_eq_true_eq] at hu
      simp only [isAsciiLowercase, Bool.and_eq_true, decide_eq_true_eq] at hlow
      omega
  unfold ChunkType.tryFrom
  dsimp only
  simp only [ChunkType.bytes, ChunkType.is_reserved_bit_valid,
    List.getD_cons_zero, List.getD_cons_succ,
    List.all_cons, List.all_nil, Bool.and_true]
  by_cases hall : (isAsciiAlphabetic b0 && (isAsciiAlphabetic b1 &&
      (isAsciiAlphabetic b2 && isAsciiAlphabetic b3))) = true
  · rw [if_neg (by simp [hall])]
    by_cases hres : isAsciiUppercase b2 = true
    · rw [if_neg (by simp [hres])]
      refine ⟨?_, ?_, ?_⟩
      · simp [Except.isOk, Except.toBool, hall, hres]
      · intro hfalse
        rw [hall] at hfalse
        exact absurd hfalse (by simp)
      · intro _ hlow
        exact absurd (hdisj hlow) (by simp [hres])
    · have hres2 := bool_false_of_not hres
      rw [if_pos (by simp [hres2])]
      refine ⟨?_, ?_, ?_⟩
      · simp [Except.isOk, Except.toBool, hall, hres2]
      · intro hfalse
        rw [hall] at hfalse
        exact absurd hfalse (by simp)
      · intro _ _
        rfl
  · have hall2 := bool_false_of_not hall
    rw [if_pos (by simp [hall2])]
    refine ⟨?_, ?_, ?_⟩
    · simp [Except.isOk, Except.toBool, hall2]
    · intro _
      rfl
    · intro htrue _
      rw [hall2] at htrue
      exact absurd htrue (by simp)

/-- Witness for claim C3 at the type code "RuSt". -/
theorem chunkType_tryFrom_c3_witness : (ChunkType.tryFrom [82, 117, 83, 116]).isOk = true :=
  ((chunkType_tryFrom_c3 82 117 83 116 (by decide) (by decide) (by decide)
    (by decide)).1).mpr (by decide)

/-- Claim C4: chunk validation reports an invalid type code before the
length and CRC cross-checks (so an invalid type is the reported error
whatever the length and crc fields hold), and decoding fails with a
CRC-mismatch error carrying the recomputed and the on-wire value
whenever the type is valid but the CRC recomputed over the type bytes
followed by the data differs from the CRC field read from the stream. -/
theorem chunk_error_order_c4 :
    (∀ (L : Nat) (ty d : List Nat) (w : Nat) (e : ChunkType.ValidationError),
      ChunkType.tryFrom ty = Except.error e →
      Chunk.validate L ty d w =
        Except.error (Chunk.ValidationError.chunkTypeErr e)) ∧
    (∀ (s : List Nat) (L : Nat) (ty d : List Nat) (w : Nat) (rest : List Nat)
      (t : ChunkType),
      (∀ x ∈ s, x < 256) →
      Chunk.parse s = Except.ok ((L, ty, d, w), rest) →
      ChunkType.tryFrom ty = Except.ok t →
      crc32 (t.bytes ++ d) ≠ w →
      Chunk.tryFromBytes s =
        Except.error (Chunk.ChunkError.validation
          (Chunk.ValidationError.crc32Mismatch (crc32 (t.bytes ++ d)) w))) := by
  constructor
  · intro L ty d w e htf
    exact chunk_validate_tryFrom_err htf
  · intro s L ty d w rest t hb hp htf hcrc
    rw [chunk_parse_eq] at hp
    by_cases hcond : 12 + beU32 (s.take 4) ≤ s.length
    case neg =>
      rw [if_neg hcond] at hp
      exact absurd hp (by simp)
    rw [if_pos hcond] at hp
    injection hp with hp1
    injection hp1 with hpA hpR
    injection hpA with hL hpA2
    injection hpA2 with hTy hpA3
    injection hpA3 with hD hW
    subst hL
    subst hTy
    subst hD
    subst hW
    subst hpR
    have hLlt : beU32 (s.take 4) < 4294967296 :=
      beU32_lt (by simp only [List.length_take]; omega)
        (fun x hxm => hb x (List.take_subset 4 s hxm))
    have hl : (List.take (beU32 (s.take 4)) (s.drop 8)).length % 4294967296 =
        beU32 (s.take 4) := by
      simp only [List.length_take, List.length_drop]
      have hmin : min (beU32 (s.take 4)) (s.length - 8) = beU32 (s.take 4) := by omega
      rw [hmin, Nat.mod_eq_of_lt hLlt]
    have hp2 : Chunk.parse s = Except.ok ((beU32 (s.take 4), (s.drop 4).take 4,
        (s.drop 8).take (beU32 (s.take 4)),
        beU32 ((s.drop (8 + beU32 (s.take 4))).take 4)),
        s.drop (12 + beU32 (s.take 4))) := by
      rw [chunk_parse_eq, if_pos hcond]
    exact chunk_tryFromBytes_validate_err hp2 (chunk_validate_crc_err htf hl hcrc)

/-- Witness for claim C4: a zero-length "RuSt" record whose crc field is 0. -/
theorem chunk_error_order_c4_witness :
    Chunk.tryFromBytes [0, 0, 0, 0, 82, 117, 83, 116, 0, 0, 0, 0] =
      Except.error (Chunk.ChunkError.validation
        (Chunk.ValidationError.crc32Mismatch
          (crc32 (ChunkType.bytes ⟨82, 117, 83, 116⟩ ++ [])) 0)) :=
  chunk_error_order_c4.2 [0, 0, 0, 0, 82, 117, 83, 116, 0, 0, 0, 0] 0
    [82, 117, 83, 116] [] 0 [] ⟨82, 117, 83, 116⟩ (by decide) rfl rfl (by decide)

/-- Tests whether a chunk decode result is the length-mismatch error. -/
def isLengthMismatchError : Except Chunk.ChunkError Chunk → Bool
  | Except.error (Chunk.ChunkError.validation
      (Chunk.ValidationError.lengthMismatch _ _)) => true
  | _ => false

/-- Claim C9: whenever the parse phase succeeds, the data it produces has
exactly the declared length, so the slice decode entry point can never
report the length-mismatch error. -/
theorem chunk_no_length_mismatch_c9 (s : List Nat) (L : Nat) (ty d : List Nat)
    (w : Nat) (rest : List Nat) (hb : ∀ x ∈ s, x < 256)
    (hp : Chunk.parse s = Except.ok ((L, ty, d, w), rest)) :
    d.length = L ∧ isLengthMismatchError (Chunk.tryFromBytes s) = false := by
  rw [chunk_parse_eq] at hp
  by_cases hcond : 12 + beU32 (s.take 4) ≤ s.length
  case neg =>
    rw [if_neg hcond] at hp
    exact absurd hp (by simp)
  rw [if_pos hcond] at hp
  injection hp with hp1
  injection hp1 with hpA hpR
  injection hpA with hL hpA2
  injection hpA2 with hTy hpA3
  injection hpA3 with hD hW
  subst hL
  subst hTy
  subst hD
  subst hW
  subst hpR
  have hLlt : beU32 (s.take 4) < 4294967296 :=
    beU32_lt (by simp only [List.length_take]; omega)
      (fun x hxm => hb x (List.take_subset 4 s hxm))
  have hdlen : (List.take (beU32 (s.take 4)) (s.drop 8)).length = beU32 (s.take 4) := by
    simp only [List.length_take, List.length_drop]
    omega
  refine ⟨hdlen, ?_⟩
  have hp2 : Chunk.parse s = Except.ok ((beU32 (s.take 4), (s.drop 4).take 4,
      (s.drop 8).take (beU32 (s.take 4)),
      beU32 ((s.drop (8 + beU32 (s.take 4))).take 4)),
      s.drop (12 + beU32 (s.take 4))) := by
    rw [chunk_parse_eq, if_pos hcond]
  have hl : (List.take (beU32 (s.take 4)) (s.drop 8)).length % 4294967296 =
      beU32 (s.take 4) := by
    rw [hdlen, Nat.mod_eq_of_lt hLlt]
  cases htf : ChunkType.tryFrom ((s.drop 4).take 4) with
  | error e =>
    rw [chunk_tryFromBytes_validate_err hp2 (chunk_validate_tryFrom_err htf)]
    rfl
  | ok t =>
    by_cases hcrc : crc32 (t.bytes ++ (s.drop 8).take (beU32 (s.take 4))) =
        beU32 ((s.drop (8 + beU32 (s.take 4))).take 4)
    · rw [chunk_tryFromBytes_ok hp2 (chunk_validate_ok_intro htf hl hcrc)]
      rfl
    · rw [chunk_tryFromBytes_validate_err hp2 (chunk_validate_crc_err htf hl hcrc)]
      rfl

/-- Witness for claim C9 at a zero-length "RuSt" record. -/
theorem chunk_no_length_mismatch_c9_witness :
    ([] : List Nat).length = 0 ∧
      isLengthMismatchError
        (Chunk.tryFromBytes [0, 0, 0, 0, 82, 117, 83, 116, 0, 0, 0, 0]) = false :=
  chunk_no_length_mismatch_c9 [0, 0, 0, 0, 82, 117, 83, 116, 0, 0, 0, 0] 0
    [82, 117, 83, 116] [] 0 [] (by decide) rfl

/-- Claim C8: decoding a single chunk from a byte slice ignores trailing
bytes after the first record: appending anything to an accepted input
yields the same chunk, with no error for the extra bytes. -/
theorem chunk_trailing_bytes_c8 (s extra : List Nat) (c : Chunk)
    (h : Chunk.tryFromBytes s = Except.ok c) :
    Chunk.tryFromBytes (s ++ extra) = Except.ok c := by
  cases hp : Chunk.parse s with
  | error e =>
    rw [chunk_tryFromBytes_parse_err hp] at h
    exact absurd h (by simp)
  | ok pr =>
    obtain ⟨⟨L, ty, d, w⟩, rest⟩ := pr
    cases hv : Chunk.validate L ty d w with
    | error e =>
      rw [chunk_tryFromBytes_validate_err hp hv] at h
      exact absurd h (by simp)
    | ok c2 =>
      rw [chunk_tryFromBytes_ok hp hv] at h
      injection h with h1
      rw [chunk_parse_eq] at hp
      by_cases hcond : 12 + beU32 (s.take 4) ≤ s.length
      case neg =>
        rw [if_neg hcond] at hp
        exact absurd hp (by simp)
      rw [if_pos hcond] at hp
      injection hp with hp1
      injection hp1 with hpA hpR
      injection hpA with hL hpA2
      injection hpA2 with hTy hpA3
      injection hpA3 with hD hW
      have htake4 : (s ++ extra).take 4 = s.take 4 :=
        List.take_append_of_le_length (by omega)
      have hlen2 : 12 + beU32 ((s ++ extra).take 4) ≤ (s ++ extra).length := by
        rw [htake4]
        simp only [List.length_append]
        omega
      have hty2 : ((s ++ extra).drop 4).take 4 = (s.drop 4).take 4 := by
        rw [List.drop_append_of_le_length (by omega)]
        exact List.take_append_of_le_length (by simp only [List.length_drop]; omega)
      have hd2 : ((s ++ extra).drop 8).take (beU32 (s.take 4)) =
          (s.drop 8).take (beU32 (s.take 4)) := by
        rw [List.drop_append_of_le_length (by omega)]
        exact List.take_append_of_le_length (by simp only [List.length_drop]; omega)
      have hw2 : ((s ++ extra).drop (8 + beU32 (s.take 4))).take 4 =
          (s.drop (8 + beU32 (s.take 4))).take 4 := by
        rw [List.drop_append_of_le_length (by omega)]
        exact List.take_append_of_le_length (by simp only [List.length_drop]; omega)
      have hp3 : Chunk.parse (s ++ extra) = Except.ok ((beU32 (s.take 4),
          (s.drop 4).take 4, (s.drop 8).take (beU32 (s.take 4)),
          beU32 ((s.drop (8 + beU32 (s.take 4))).take 4)),
          (s ++ extra).drop (12 + beU32 (s.take 4))) := by
        rw [chunk_parse_eq, if_pos hlen2, htake4, hty2, hd2, hw2]
      subst hL
      subst hTy
      subst hD
      subst hW
      rw [chunk_tryFromBytes_ok hp3 hv, h1]

/-- Witness for claim C8: the valid empty-data "RuSt" record followed by
three junk bytes still decodes to the same chunk. -/
theorem chunk_trailing_bytes_c8_witness :
    Chunk.tryFromBytes
      ([0, 0, 0, 0, 82, 117, 83, 116, 212, 132, 9, 60] ++ [7, 7, 7]) =
      Except.ok ⟨⟨82, 117, 83, 116⟩, []⟩ :=
  chunk_trailing_bytes_c8 [0, 0, 0, 0, 82, 117, 83, 116, 212, 132, 9, 60]
    [7, 7, 7] ⟨⟨82, 117, 83, 116⟩, []⟩ rfl

/-- The encoded form of any chunk has exactly 12 bytes of overhead plus
the actual (untruncated) data length. -/
theorem chunk_as_bytes_length (c : Chunk) : c.as_bytes.length = 12 + c.data.length := by
  show (u32BeBytes c.length ++ (c.chunk_type.bytes ++
    (c.data ++ u32BeBytes c.crc))).length = 12 + c.data.length
  simp only [List.length_append, u32BeBytes_length,
    show (c.chunk_type.bytes).length = 4 from rfl]
  omega

/-- The length field of `Chunk.new` is the data length modulo `2 ^ 32`. -/
theorem chunk_new_length_formula (t : ChunkType) (d : List Nat) :
    (Chunk.new t d).length = d.length % 4294967296 := rfl

/-- The data stored by `Chunk.new` is the given data. -/
theorem chunk_new_data (t : ChunkType) (d : List Nat) : (Chunk.new t d).data = d := rfl

/-- Counterexample to claim C6: for a chunk holding `2 ^ 32` data bytes
the encoding has `12 + 2 ^ 32` bytes while the length field wraps to 0,
so the encoded size is not `12 + length` where length is the length field. -/
theorem chunk_c6_counterexample :
    (Chunk.new rustType bigData).as_bytes.length ≠
      12 + (Chunk.new rustType bigData).length := by
  have hbig : bigData.length = 4294967296 := List.length_replicate 4294967296 0
  rw [chunk_as_bytes_length, chunk_new_length_formula, chunk_new_data, hbig, Nat.mod_self]
  omega

/-- Claim C6 (amended): for every chunk whose data holds fewer than
`2 ^ 32` bytes, encoding produces exactly `12 + length` bytes laid out as
the 4-byte big-endian length, the 4 type bytes, the `length` data bytes,
and the 4-byte big-endian CRC, in that order. -/
theorem chunk_encode_layout_c6 (c : Chunk) (h : c.data.length < 4294967296) :
    c.as_bytes.length = 12 + c.length ∧
    c.as_bytes.take 4 = u32BeBytes c.length ∧
    (c.as_bytes.drop 4).take 4 = c.chunk_type.bytes ∧
    (c.as_bytes.drop 8).take c.length = c.data ∧
    c.as_bytes.drop (8 + c.length) = u32BeBytes c.crc := by
  have hlen : c.length = c.data.length := by
    unfold Chunk.length
    exact Nat.mod_eq_of_lt h
  have hA : (u32BeBytes c.length).length = 4 := u32BeBytes_length
  have hB : (c.chunk_type.bytes).length = 4 := rfl
  have hasb : c.as_bytes = u32BeBytes c.length ++
      (c.chunk_type.bytes ++ (c.data ++ u32BeBytes c.crc)) := rfl
  refine ⟨?_, ?_, ?_, ?_, ?_⟩
  · rw [chunk_as_bytes_length, hlen]
  · rw [hasb]
    exact List.take_left' hA
  · rw [hasb, List.drop_left' hA]
    exact List.take_left' hB
  · rw [hasb]
    have e := List.drop_drop 4 4 (u32BeBytes c.length ++
      (c.chunk_type.bytes ++ (c.data ++ u32BeBytes c.crc)))
    rw [List.drop_left' hA, List.drop_left' hB] at e
    rw [← e]
    exact List.take_left' hlen.symm
  · rw [hasb]
    have e := List.drop_drop 4 4 (u32BeBytes c.length ++
      (c.chunk_type.bytes ++ (c.data ++ u32BeBytes c.crc)))
    rw [List.drop_left' hA, List.drop_left' hB] at e
    have e2 := List.drop_drop c.length 8 (u32BeBytes c.length ++
      (c.chunk_type.bytes ++ (c.data ++ u32BeBytes c.crc)))
    rw [show (u32BeBytes c.length ++ (c.chunk_type.bytes ++
      (c.data ++ u32BeBytes c.crc))).drop 8 = c.data ++ u32BeBytes c.crc from e.symm] at e2
    rw [List.drop_left' hlen.symm] at e2
    exact e2.symm

/-- Witness for claim C6 at a two-byte "RuSt" chunk. -/
theorem chunk_encode_layout_c6_witness :
    (Chunk.as_bytes ⟨⟨82, 117, 83, 116⟩, [1, 2]⟩).length =
      12 + Chunk.length ⟨⟨82, 117, 83, 116⟩, [1, 2]⟩ :=
  (chunk_encode_layout_c6 ⟨⟨82, 117, 83, 116⟩, [1, 2]⟩ (by decide)).1

/-- A double-negation elimination step for negated Bool hypotheses. -/
theorem bool_true_of_not_not {b : Bool} (h : ¬((!b) = true)) : b = true := by
  cases b
  · exact absurd rfl h
  · rfl

/-- The bytes of a chunk type accepted by validation are ASCII letters,
hence genuine bytes below 256. -/
theorem chunkType_tryFrom_bytes_ok_lt {t : ChunkType}
    (h : ChunkType.tryFrom t.bytes = Except.ok t) : ∀ x ∈ t.bytes, x < 256 := by
  obtain ⟨a0, a1, a2, a3⟩ := t
  unfold ChunkType.tryFrom at h
  dsimp only at h
  split_ifs at h with h1 h2
  intro x hxm
  have hX := bool_true_of_not_not h1
  simp only [ChunkType.bytes, List.getD_cons_zero, List.getD_cons_succ,
    List.all_cons, List.all_nil, Bool.and_true, Bool.and_eq_true] at hX
  obtain ⟨g0, g1, g2, g3⟩ := hX
  simp only [ChunkType.bytes, List.mem_cons, List.not_mem_nil, or_false] at hxm
  have halpha : ∀ y : Nat, isAsciiAlphabetic y = true → y < 256 := by
    intro y hy
    simp only [isAsciiAlphabetic, isAsciiUppercase, isAsciiLowercase,
      Bool.or_eq_true, Bool.and_eq_true, decide_eq_true_eq] at hy
    omega
  rcases hxm with rfl | rfl | rfl | rfl
  · exact halpha _ g0
  · exact halpha _ g1
  · exact halpha _ g2
  · exact halpha _ g3

/-- Parsing a well-formed wire image `length ++ type ++ data ++ crc`
recovers its four fields and consumes the whole input. -/
theorem chunk_parse_wire {A B D E : List Nat} (hA : A.length = 4) (hB : B.length = 4)
    (hE : E.length = 4) (hL : beU32 A = D.length) :
    Chunk.parse (A ++ (B ++ (D ++ E))) =
      Except.ok ((D.length, B, D, beU32 E), []) := by
  have hlen : (A ++ (B ++ (D ++ E))).length = 12 + D.length := by
    simp only [List.length_append, hA, hB, hE]
    omega
  have htake4 : (A ++ (B ++ (D ++ E))).take 4 = A := List.take_left' hA
  have hbeu : beU32 ((A ++ (B ++ (D ++ E))).take 4) = D.length := by
    rw [htake4, hL]
  have hcond : 12 + beU32 ((A ++ (B ++ (D ++ E))).take 4) ≤
      (A ++ (B ++ (D ++ E))).length := by
    rw [hbeu, hlen]
  have hd4 : (A ++ (B ++ (D ++ E))).drop 4 = B ++ (D ++ E) := List.drop_left' hA
  have hty : ((A ++ (B ++ (D ++ E))).drop 4).take 4 = B := by
    rw [hd4]
    exact List.take_left' hB
  have hd8 : (A ++ (B ++ (D ++ E))).drop 8 = D ++ E := by
    have e := List.drop_drop 4 4 (A ++ (B ++ (D ++ E)))
    rw [hd4, List.drop_left' hB] at e
    exact e.symm
  have hdd : ((A ++ (B ++ (D ++ E))).drop 8).take D.length = D := by
    rw [hd8]
    exact List.take_left' rfl
  have hd8L : (A ++ (B ++ (D ++ E))).drop (8 + D.length) = E := by
    have e2 := List.drop_drop D.length 8 (A ++ (B ++ (D ++ E)))
    rw [hd8, List.drop_left' rfl] at e2
    exact e2.symm
  have hw : beU32 (((A ++ (B ++ (D ++ E))).drop (8 + D.length)).take 4) = beU32 E := by
    rw [hd8L]
    have htE : E.take 4 = E := by
      rw [← hE]
      exact List.take_length E
    rw [htE]
  have hrest : (A ++ (B ++ (D ++ E))).drop (12 + D.length) = [] := by
    apply List.drop_eq_nil_of_le
    rw [hlen]
  rw [chunk_parse_eq, if_pos hcond, hbeu, hty, hdd, hw, hrest]

/-- The wire layout of a chunk encoding, stated for rewriting. -/
theorem chunk_as_bytes_def (c : Chunk) : c.as_bytes =
    u32BeBytes c.length ++ (c.chunk_type.bytes ++ (c.data ++ u32BeBytes c.crc)) := rfl

/-- The chunk type stored by `Chunk.new` is the given type. -/
theorem chunk_new_chunk_type (t : ChunkType) (d : List Nat) :
    (Chunk.new t d).chunk_type = t := rfl

/-- The first four bytes of the big payload followed by anything are zeros. -/
theorem bigData_take4 (E : List Nat) : (bigData ++ E).take 4 = [0, 0, 0, 0] := by
  have hbig : bigData.length = 4294967296 := List.length_replicate 4294967296 0
  rw [List.take_append_of_le_length (by rw [hbig]; omega)]
  unfold bigData
  rw [List.take_replicate, show min 4 4294967296 = 4 by omega]
  rfl

/-- Parsing the wire image of the `2 ^ 32`-byte chunk reads a zero length
and a zero crc field. -/
theorem bigData_parse (E : List Nat) (hE : E.length = 4) :
    Chunk.parse ([0, 0, 0, 0] ++ ([82, 117, 83, 116] ++ (bigData ++ E))) =
      Except.ok ((0, [82, 117, 83, 116], [], 0),
        ([0, 0, 0, 0] ++ ([82, 117, 83, 116] ++ (bigData ++ E))).drop (12 + 0)) := by
  have hbig : bigData.length = 4294967296 := List.length_replicate 4294967296 0
  have htake4 : ([0, 0, 0, 0] ++ ([82, 117, 83, 116] ++ (bigData ++ E))).take 4 =
      [0, 0, 0, 0] := List.take_left' rfl
  have hbeu : beU32 (([0, 0, 0, 0] ++ ([82, 117, 83, 116] ++ (bigData ++ E))).take 4) =
      0 := by
    rw [htake4]
    rfl
  have hlenS : ([0, 0, 0, 0] ++ ([82, 117, 83, 116] ++ (bigData ++ E))).length =
      12 + 4294967296 := by
    simp only [List.length_append, hbig, hE,
      show ([0, 0, 0, 0] : List Nat).length = 4 from rfl,
      show ([82, 117, 83, 116] : List Nat).length = 4 from rfl]
  have hcond : 12 + beU32 (([0, 0, 0, 0] ++
      ([82, 117, 83, 116] ++ (bigData ++ E))).take 4) ≤
      ([0, 0, 0, 0] ++ ([82, 117, 83, 116] ++ (bigData ++ E))).length := by
    rw [hbeu, hlenS]
    omega
  have hd4 : ([0, 0, 0, 0] ++ ([82, 117, 83, 116] ++ (bigData ++ E))).drop 4 =
      [82, 117, 83, 116] ++ (bigData ++ E) := List.drop_left' rfl
  have hty : (([0, 0, 0, 0] ++ ([82, 117, 83, 116] ++ (bigData ++ E))).drop 4).take 4 =
      [82, 117, 83, 116] := by
    rw [hd4]
    exact List.take_left' rfl
  have hd8 : ([0, 0, 0, 0] ++ ([82, 117, 83, 116] ++ (bigData ++ E))).drop 8 =
      bigData ++ E := by
    have e := List.drop_drop 4 4 ([0, 0, 0, 0] ++ ([82, 117, 83, 116] ++ (bigData ++ E)))
    rw [hd4, List.drop_left'
      (show ([82, 117, 83, 116] : List Nat).length = 4 from rfl)] at e
    exact e.symm
  have hw : beU32 ((([0, 0, 0, 0] ++
      ([82, 117, 83, 116] ++ (bigData ++ E))).drop (8 + 0)).take 4) = 0 := by
    rw [show (8 + 0 : Nat) = 8 from rfl, hd8, bigData_take4]
    rfl
  rw [chunk_parse_eq, if_pos hcond, hbeu]
  rw [hty, List.take_zero, hw]

/-- Decoding the wire image of the `2 ^ 32`-byte chunk fails with a crc
mismatch against the zero crc field. -/
theorem bigData_tryFromBytes (E : List Nat) (hE : E.length = 4) :
    Chunk.tryFromBytes ([0, 0, 0, 0] ++ ([82, 117, 83, 116] ++ (bigData ++ E))) =
      Except.error (Chunk.ChunkError.validation
        (Chunk.ValidationError.crc32Mismatch
          (crc32 (ChunkType.bytes ⟨82, 117, 83, 116⟩ ++ [])) 0)) := by
  have hv : Chunk.validate 0 [82, 117, 83, 116] [] 0 =
      Except.error (Chunk.ValidationError.crc32Mismatch
        (crc32 (ChunkType.bytes ⟨82, 117, 83, 116⟩ ++ [])) 0) :=
    chunk_validate_crc_err rfl (by decide) (by decide)
  exact chunk_tryFromBytes_validate_err (bigData_parse E hE) hv

/-- Counterexample to claim C1 as stated for arbitrary byte sequences:
with a payload of `2 ^ 32` zero bytes the length field wraps to 0, so the
encoding parses as a zero-length chunk whose crc field reads as 0, and
decoding the encoding fails instead of returning the original chunk. -/
theorem chunk_c1_counterexample :
    Chunk.tryFromBytes ((Chunk.new rustType bigData).as_bytes) ≠
      Except.ok (Chunk.new rustType bigData) := by
  have hbig : bigData.length = 4294967296 := List.length_replicate 4294967296 0
  have h1 : (Chunk.new rustType bigData).length = 0 := by
    rw [chunk_new_length_formula, hbig, Nat.mod_self]
  rw [chunk_as_bytes_def, h1, chunk_new_data, chunk_new_chunk_type]
  rw [show u32BeBytes 0 = [0, 0, 0, 0] from rfl]
  rw [show ChunkType.bytes rustType = [82, 117, 83, 116] from rfl]
  rw [bigData_tryFromBytes (u32BeBytes ((Chunk.new rustType bigData).crc)) u32BeBytes_length]
  simp

/-- Claim C1 (amended): for every chunk type accepted by validation and
every byte sequence of fewer than `2 ^ 32` bytes, decoding the encoding
of `Chunk.new` succeeds and returns a chunk equal to `Chunk.new` of the
same type and data (hence with the same type, data, length and CRC). -/
theorem chunk_roundtrip_c1 (t : ChunkType) (d : List Nat)
    (ht : ChunkType.tryFrom t.bytes = Except.ok t)
    (hd : ∀ x ∈ d, x < 256)
    (hlen : d.length < 4294967296) :
    Chunk.tryFromBytes (Chunk.new t d).as_bytes = Except.ok (Chunk.new t d) := by
  have hbytes_lt := chunkType_tryFrom_bytes_ok_lt ht
  have hcrc_lt : crc32 (t.bytes ++ d) < 4294967296 := by
    refine crc32_lt ?_
    intro x hxm
    rcases List.mem_append.mp hxm with hm | hm
    · exact hbytes_lt x hm
    · exact hd x hm
  have hclen : (Chunk.new t d).length = d.length := by
    rw [chunk_new_length_formula]
    exact Nat.mod_eq_of_lt hlen
  have hccrc : (Chunk.new t d).crc = crc32 (t.bytes ++ d) := rfl
  rw [chunk_as_bytes_def, hclen, chunk_new_data, chunk_new_chunk_type, hccrc]
  have hA : (u32BeBytes d.length).length = 4 := u32BeBytes_length
  have hB2 : (t.bytes).length = 4 := rfl
  have hE : (u32BeBytes (crc32 (t.bytes ++ d))).length = 4 := u32BeBytes_length
  have hL : beU32 (u32BeBytes d.length) = d.length := beU32_u32BeBytes hlen
  have hp := chunk_parse_wire hA hB2 hE hL
  rw [beU32_u32BeBytes hcrc_lt] at hp
  have hv : Chunk.validate d.length t.bytes d (crc32 (t.bytes ++ d)) =
      Except.ok ⟨t, d⟩ :=
    chunk_validate_ok_intro ht (Nat.mod_eq_of_lt hlen) rfl
  exact chunk_tryFromBytes_ok hp hv

/-- Witness for claim C1: round trip of a two-byte "RuSt" chunk. -/
theorem chunk_roundtrip_c1_witness :
    Chunk.tryFromBytes (Chunk.new ⟨82, 117, 83, 116⟩ [72, 105]).as_bytes =
      Except.ok (Chunk.new ⟨82, 117, 83, 116⟩ [72, 105]) :=
  chunk_roundtrip_c1 ⟨82, 117, 83, 116⟩ [72, 105] rfl (by decide) (by decide)
